import Mathlib

/-!
Verification development for the neoview python backend.

This file gives a shallow embedding of the parts of the backend that carry
real invariants: the SQLite thumbnail store (`db/thumbnail_db.py`), the
thumbnail generation pipeline (`core/thumbnail_generator.py`), and the
multi-format archive access layer with its three caches
(`core/archive_manager.py`).  Python byte strings are modelled as `List Nat`,
SQLite's dynamically typed column values as `PyVal`, tables as functions
`String → Option row`, and wall-clock timestamps as integers (the code
stores them as `"%Y-%m-%d %H:%M:%S"` strings and parses them back; the
round trip is faithful to integer seconds).
-/

/-- Python byte strings, as lists of byte values. -/
abbrev Bytes := List Nat

/-- A dynamically typed value as stored in a SQLite column by the `sqlite3`
module: a blob, an integer, a text string, or NULL.  Python is dynamically
typed, so the `thumbs` columns can hold any of these regardless of the
declared schema. -/
inductive PyVal where
  | bytes (b : Bytes)
  | int (n : Int)
  | str (s : String)
  | null
deriving DecidableEq, Repr

/-- Python truthiness for the values above: empty bytes, zero, the empty
string and `None` are falsy. -/
def pyTruthy : PyVal → Bool
  | .bytes b => !b.isEmpty
  | .int n => n != 0
  | .str s => s != ""
  | .null => false

/-- Python `==` between column values: values of different runtime types
compare unequal (`b"x" == 5` is `False`), same-type values compare by
content. -/
def pyEq : PyVal → PyVal → Bool
  | .bytes a, .bytes b => a == b
  | .int a, .int b => a == b
  | .str a, .str b => a == b
  | .null, .null => true
  | _, _ => false

/-- Point update of a string-keyed table. -/
def updateTable {β : Type} (t : String → Option β) (k : String) (v : β) : String → Option β :=
  fun k' => if k' = k then some v else t k'

/-- Point deletion from a string-keyed table. -/
def eraseTable {β : Type} (t : String → Option β) (k : String) : String → Option β :=
  fun k' => if k' = k then none else t k'

/-- One row of the `thumbs` table, restricted to the columns the modelled
operations read or write (`INSERT OR REPLACE` rewrites the whole row, so the
remaining columns of a replaced row are NULL and never consulted here). -/
structure ThumbRow where
  size : PyVal
  date : PyVal
  ghash : PyVal
  category : PyVal
  value : PyVal
deriving DecidableEq, Repr

/-- One row of the `failed_thumbnails` table.  `last_attempt` is the stored
timestamp (NULL possible), modelled in integer seconds. -/
structure FailedRow where
  reason : String
  retry_count : Nat
  last_attempt : Option Int
  error_message : String
deriving DecidableEq, Repr

/-- Substring test on strings via their character lists (Python `sub in s`). -/
def strHasSub (s sub : String) : Bool :=
  let rec go : List Char → Bool
    | [] => sub.toList.isEmpty
    | c :: cs => sub.toList.isPrefixOf (c :: cs) || go cs
  go s.toList

/-- ThumbnailDB.get_thumbnail_if_valid: `SELECT value, size FROM thumbs WHERE
key = ? AND value IS NOT NULL`; on a row, return the value if its `size`
column equals the live size, otherwise — "兼容旧数据" — still return the value
if it is truthy.  The `file_mtime` argument is accepted but never consulted. -/
def get_thumbnail_if_valid (thumbs : String → Option ThumbRow) (key : String)
    (file_size : Int) (file_mtime : Int) : Option PyVal :=
  let _ := file_mtime
  match thumbs key with
  | none => none
  | some r =>
    if r.value = PyVal.null then none
    else if pyEq r.size (PyVal.int file_size) then some r.value
    else if pyTruthy r.value then some r.value
    else none

/-- ThumbnailDB.save_thumbnail(key, size, ghash, data, category):
`INSERT OR REPLACE INTO thumbs (key, size, date, ghash, category, value)`.
The `date` column gets the current wall-clock timestamp string `now`; the
category defaults from the shape of the key. -/
def save_thumbnail (thumbs : String → Option ThumbRow) (key : String)
    (size ghash data : PyVal) (category : Option String) (now : String) :
    String → Option ThumbRow :=
  let cat := category.getD
    (if !strHasSub key "::" && !strHasSub key "." then "folder" else "file")
  updateTable thumbs key
    { size := size, date := .str now, ghash := ghash, category := .str cat, value := data }

/-- ThumbnailDB.is_failed(key, max_age): returns whether generation should be
skipped, together with the table after the call (an expired row is deleted on
the way out).  `retry_count ≥ 3` is a permanent failure; otherwise the row
blocks regeneration only while `now - last_attempt < max_age`. -/
def is_failed (failed : String → Option FailedRow) (key : String)
    (now : Int) (max_age : Int) : Bool × (String → Option FailedRow) :=
  match failed key with
  | none => (false, failed)
  | some r =>
    if 3 ≤ r.retry_count then (true, failed)
    else
      match r.last_attempt with
      | some t =>
        if now - t < max_age then (true, failed)
        else (false, eraseTable failed key)
      | none => (false, eraseTable failed key)

/-- ThumbnailDB.mark_failed: upsert that inserts `retry_count = 1` for a new
key and `retry_count + 1` on conflict; `reason` is only written on insert,
`last_attempt` and `error_message` are refreshed either way. -/
def mark_failed (failed : String → Option FailedRow) (key : String)
    (error : String) (reason : String) (now : Int) : String → Option FailedRow :=
  match failed key with
  | none =>
    updateTable failed key
      { reason := reason, retry_count := 1, last_attempt := some now, error_message := error }
  | some r =>
    updateTable failed key
      { r with retry_count := r.retry_count + 1, last_attempt := some now, error_message := error }

/-- ThumbnailDB.remove_failed: `DELETE FROM failed_thumbnails WHERE key = ?`. -/
def remove_failed (failed : String → Option FailedRow) (key : String) :
    String → Option FailedRow :=
  eraseTable failed key

/-- The two persistent tables the generation pipeline touches. -/
structure DBState where
  thumbs : String → Option ThumbRow
  failed : String → Option FailedRow

/-- Outcome of the resolve/decode/resize/encode part of one generation
attempt (the part done by PIL / libav / the per-type helpers, external to the
claims): it raises, returns `None` (e.g. a folder with no usable child), or
produces thumbnail bytes. -/
inductive GenOutcome where
  | raised (msg : String)
  | returnedNone
  | produced (b : Bytes)

/-- Result of one `generate_file_thumbnail` call: the returned value, the
updated tables, and whether the decode path was invoked at all. -/
structure GenResult where
  result : Option PyVal
  db : DBState
  decodeInvoked : Bool

/-- core/thumbnail_generator.generate_file_thumbnail: check the cache, then
the failure table, then decode and persist.  The persist step is the source's
call `db.save_thumbnail(path_key, thumbnail, st.st_size, int(st.st_mtime),
category)`, whose arguments land positionally on `save_thumbnail(key, size,
ghash, data, category)` — so the `size` column receives the thumbnail bytes
and the `value` column receives the integer mtime. -/
def generate_file_thumbnail (db : DBState) (key : String) (fileExists : Bool)
    (st_size st_mtime : Int) (now : Int) (nowStr : String)
    (category : String) (gen : GenOutcome) : GenResult :=
  if !fileExists then ⟨none, db, false⟩
  else
    let cached := get_thumbnail_if_valid db.thumbs key st_size st_mtime
    if cached.elim false pyTruthy then ⟨cached, db, false⟩
    else
      let p := is_failed db.failed key now 3600
      if p.1 then ⟨none, ⟨db.thumbs, p.2⟩, false⟩
      else
        match gen with
        | .raised msg =>
          ⟨none, ⟨db.thumbs, mark_failed p.2 key msg "generation_failed" now⟩, true⟩
        | .returnedNone => ⟨none, ⟨db.thumbs, p.2⟩, true⟩
        | .produced b =>
          let thumbs' := save_thumbnail db.thumbs key (.bytes b) (.int st_size)
            (.int st_mtime) (some category) nowStr
          ⟨some (.bytes b), ⟨thumbs', p.2⟩, true⟩

/-- ASCII lowering of one character, as Python `str.lower()` acts on the
ASCII range (the paths in the claims are ASCII). -/
def charLowerAscii (c : Char) : Char :=
  if 'A' ≤ c ∧ c ≤ 'Z' then Char.ofNat (c.toNat + 32) else c

/-- Python `str.lower()` restricted to ASCII. -/
def pyLower (s : String) : String :=
  ⟨s.toList.map charLowerAscii⟩

/-- Python string `<`: lexicographic comparison of code points. -/
def charListLt : List Char → List Char → Bool
  | [], [] => false
  | [], _ :: _ => true
  | _ :: _, [] => false
  | c :: cs, d :: ds =>
    if c < d then true else if d < c then false else charListLt cs ds

/-- One chunk of a natsort key: a maximal run of non-digit characters, or a
maximal run of digits read as a number (leading zeros collapse, as in
Python's `int`). -/
inductive NatChunk where
  | text (cs : List Char)
  | num (n : Nat)
deriving DecidableEq, Repr

/-- Python tuple `<=` on natsort keys.  Well-formed keys alternate text and
number chunks starting with a text chunk, so chunks at equal positions have
equal kinds; a shorter key that is a prefix compares smaller, matching
Python tuple comparison. -/
def natChunksLe : List NatChunk → List NatChunk → Bool
  | [], _ => true
  | _ :: _, [] => false
  | .text s :: cs, .text t :: ds =>
    if charListLt s t then true else if charListLt t s then false else natChunksLe cs ds
  | .num m :: cs, .num n :: ds =>
    if m < n then true else if n < m then false else natChunksLe cs ds
  | .text _ :: _, .num _ :: _ => true
  | .num _ :: _, .text _ :: _ => false

/-- One step of splitting a string into natsort chunks; the accumulator holds
the chunks in reverse, with the current run at the head. -/
def stepChunk (acc : List NatChunk) (c : Char) : List NatChunk :=
  if c.isDigit then
    match acc with
    | .num n :: rest => .num (n * 10 + (c.toNat - 48)) :: rest
    | _ => .num (c.toNat - 48) :: acc
  else
    match acc with
    | .text s :: rest => .text (s ++ [c]) :: rest
    | _ => .text [c] :: acc

/-- The natsort key of a character sequence: alternating text/number chunks,
with an empty leading text chunk when the string starts with a digit
(mirroring `re.split` with a capturing digit group, which is what natsort's
default integer algorithm does). -/
def natKeyChars (cs : List Char) : List NatChunk :=
  let l := (cs.foldl stepChunk []).reverse
  match l with
  | .num _ :: _ => .text [] :: l
  | _ => l

/-- The sort key used by `list_archive_contents`: natsort key of the
lowered inner path (`key=lambda x: x.path.lower()` with `ns.IGNORECASE`). -/
def natKey (s : String) : List NatChunk :=
  natKeyChars (s.toList.map charLowerAscii)

/-- Case-insensitive natural-order comparison of inner paths. -/
def pathLe (a b : String) : Prop :=
  natChunksLe (natKey a) (natKey b) = true

instance : DecidableRel pathLe := fun a b => by
  unfold pathLe; infer_instance

/-- Python `Path(p).name`: the part of the path after the final slash. -/
def pathName (s : String) : String :=
  ⟨(s.toList.reverse.takeWhile (fun c => c ≠ '/')).reverse⟩

/-- Python `Path(p).suffix`: the final `.xyz` of the file name, empty when
the name has no dot, starts with its only dot, or ends with a dot. -/
def pySuffix (s : String) : String :=
  let name := (pathName s).toList
  let pre := name.reverse.takeWhile (fun c => c ≠ '.')
  if pre.length = name.length then ""
  else if pre.length + 1 = name.length then ""
  else if pre.length = 0 then ""
  else ⟨'.' :: pre.reverse⟩

/-- core/fs_manager.IMAGE_EXTENSIONS. -/
def IMAGE_EXTENSIONS : List String :=
  [".jpg", ".jpeg", ".png", ".gif", ".bmp", ".webp", ".avif", ".jxl",
   ".tiff", ".tif", ".ico", ".svg", ".heic", ".heif"]

/-- core/fs_manager.is_image_file. -/
def is_image_file (path : String) : Bool :=
  IMAGE_EXTENSIONS.contains (pyLower (pySuffix path))

/-- core/archive_manager.detect_archive_type. -/
def detect_archive_type (path : String) : Option String :=
  let ext := pyLower (pySuffix path)
  if ext = ".zip" ∨ ext = ".cbz" then some "zip"
  else if ext = ".rar" ∨ ext = ".cbr" then some "rar"
  else if ext = ".7z" ∨ ext = ".cb7" then some "7z"
  else none

/-- Python `inner_path.replace("\\", "/")`. -/
def normalizeSep (s : String) : String :=
  ⟨s.toList.map (fun c => if c = '\\' then '/' else c)⟩

/-- The 6-tuple `zipfile` exposes as `ZipInfo.date_time`. -/
structure DateTime6 where
  y : Nat
  mo : Nat
  d : Nat
  hh : Nat
  mi : Nat
  s : Nat
deriving DecidableEq, Repr

/-- One entry of a Zip archive as the backend exposes it: inner path, payload
bytes (`file_size` is its length) and the optional date tuple. -/
structure ZipInfo where
  filename : String
  data : Bytes
  date_time : Option DateTime6
deriving DecidableEq, Repr

/-- A Zip archive is its ordered entry list; duplicate inner names are legal
in the Zip format. -/
abbrev ZipFileData := List ZipInfo

/-- Reading an entry by name (`ZipFile.read(name)`): the name-to-info index
is built front to back with later entries overwriting earlier ones, so a
read by name returns the payload of the last entry bearing that name. -/
def zip_read_by_name (z : ZipFileData) (name : String) : Option Bytes :=
  (z.reverse.find? (fun e => e.filename == name)).map ZipInfo.data

/-- Whether an inner name denotes a directory entry (`name.endswith('/')`). -/
def isDirFilename (s : String) : Bool :=
  s.toList.getLast? == some '/'

/-- models/schemas.ArchiveEntry. -/
structure ArchiveEntry where
  name : String
  path : String
  size : Nat
  isDir : Bool
  isImage : Bool
  entryIndex : Nat
  modified : Option Int
deriving DecidableEq, Repr

/-- The `ArchiveEntry` built for one Zip entry at enumeration index `idx`. -/
def entryOfZipInfo (idx : Nat) (info : ZipInfo) : ArchiveEntry :=
  { name := pathName info.filename
    path := info.filename
    size := info.data.length
    isDir := isDirFilename info.filename
    isImage := is_image_file info.filename
    entryIndex := idx
    modified := info.date_time.map (fun t =>
      (t.y * 10000000 + t.mo * 100000 + t.d * 1000 + t.hh * 100 + t.mi * 10 + t.s : Int)) }

/-- core/archive_manager.list_zip_contents.  The backend either fails to open
(`Except.error`), or enumerates a list of infos after which an exception may
or may not interrupt the loop (the `Bool`).  The `try` wraps the whole loop
and the handler swallows the exception, so whatever was accumulated before
the interruption is returned. -/
def list_zip_contents (openRes : Except Unit (List ZipInfo × Bool)) : List ArchiveEntry :=
  match openRes with
  | .error _ => []
  | .ok (infos, _raisedMidway) =>
    infos.enum.filterMap (fun p =>
      if isDirFilename p.2.filename then none
      else some (entryOfZipInfo p.1 p.2))

/-- Natural-order comparison of archive entries by lowered inner path. -/
def natLe (a b : ArchiveEntry) : Prop :=
  pathLe a.path b.path

instance : DecidableRel natLe := fun a b => by
  unfold natLe; infer_instance

/-- core/archive_manager.list_archive_contents, Zip branch, cache-miss path:
list the non-directory entries, sort them naturally (case-insensitive,
numeric runs as numbers) by inner path, and reassign `entryIndex`
contiguously in the sorted order. -/
def list_archive_contents (openRes : Except Unit (List ZipInfo × Bool)) : List ArchiveEntry :=
  let entries := list_zip_contents openRes
  let sorted := List.insertionSort natLe entries
  sorted.enum.map (fun p => { p.2 with entryIndex := p.1 })

/-- The exception classes a `zipfile` handle read or open raises: `KeyError`
for a missing member, `BadZipFile`, `OSError` (which includes
`FileNotFoundError`), or anything else. -/
inductive ZipErr where
  | keyError
  | badZipFile
  | osError
  | otherErr
deriving DecidableEq, Repr

/-- An open Zip handle: the snapshot of the archive it reads, plus an
optional error a stale handle raises on use (e.g. after the file mutated on
disk underneath it). -/
structure ZipHandle where
  contents : ZipFileData
  broken : Option ZipErr
deriving DecidableEq, Repr

/-- Reading one member through a handle (`zf.read(inner)`). -/
def ZipHandle.read (h : ZipHandle) (inner : String) : Except ZipErr Bytes :=
  match h.broken with
  | some e => .error e
  | none =>
    match zip_read_by_name h.contents inner with
    | some d => .ok d
    | none => .error .keyError

/-- The module-level caches of core/archive_manager: the index cache
(`_archive_cache`), the handle cache (`_archive_handle_cache`, an LRU of
at most 10 handles, most recent first here), and the extract cache
(`_extract_cache`, an LRU of at most 200 entries) with its byte counter
(`_extract_cache_size`).  The extract cache's `entries` are kept in dict
insertion order (oldest first), which is the order `keys()` iterates;
`access` is the LRU order (least recently used first), which is the order
`popitem` evicts; `size` is the Python byte counter, an `int`. -/
structure ExtractCache where
  entries : List (String × Bytes)
  access : List String
  size : Int
deriving DecidableEq, Repr

/-- An empty extract cache with a zeroed byte counter. -/
def emptyExtract : ExtractCache :=
  { entries := [], access := [], size := 0 }

/-- The three module-level caches together. -/
structure ArchiveCaches where
  archive_cache : List (String × List ArchiveEntry)
  handle_cache : List (String × ZipHandle)
  extract : ExtractCache
deriving DecidableEq, Repr

/-- The caches at process start. -/
def emptyCaches : ArchiveCaches :=
  { archive_cache := [], handle_cache := [], extract := emptyExtract }

/-- Assoc lookup in the handle cache. -/
def lookupHandle (hc : List (String × ZipHandle)) (path : String) : Option ZipHandle :=
  (hc.find? (fun q => q.1 == path)).map Prod.snd

/-- core/archive_manager._get_cached_zip_handle: return the cached handle
(refreshing its recency), else open the file, cache the new handle (evicting
the least recently used one beyond capacity 10) and return it.  A failed
open raises `OSError` (the file is gone) and caches nothing. -/
def _get_cached_zip_handle (files : String → Option ZipFileData) (st : ArchiveCaches)
    (path : String) : Except ZipErr (ZipHandle × ArchiveCaches) :=
  match lookupHandle st.handle_cache path with
  | some h =>
    .ok (h, { st with handle_cache := (path, h) :: st.handle_cache.filter (fun q => q.1 ≠ path) })
  | none =>
    match files path with
    | some z =>
      .ok (⟨z, none⟩, { st with handle_cache := ((path, ⟨z, none⟩) :: st.handle_cache).take 10 })
    | none => .error .osError

/-- core/archive_manager._close_archive_handles for a single path: pop the
handle from the cache (the close of the underlying file object has no
observable effect in this model). -/
def _close_archive_handles (st : ArchiveCaches) (path : String) : ArchiveCaches :=
  { st with handle_cache := st.handle_cache.filter (fun q => q.1 ≠ path) }

/-- Lookup in the extract cache (`cache_key in _extract_cache` followed by
`_extract_cache[cache_key]`); a hit refreshes the key's LRU recency. -/
def extract_cache_get (ec : ExtractCache) (key : String) : Option Bytes × ExtractCache :=
  match ec.entries.find? (fun p => p.1 == key) with
  | some p => (some p.2, { ec with access := ec.access.erase key ++ [key] })
  | none => (none, ec)

/-- One LRU eviction of the underlying cachetools cache (`popitem`): drop the
least recently used key.  The byte counter is not adjusted — the Python
counter is maintained only by the explicit eviction code, not by the cache's
own capacity eviction. -/
def extract_lru_pop (ec : ExtractCache) : ExtractCache :=
  match ec.access with
  | [] => ec
  | k :: rest =>
    { ec with
      entries := ec.entries.filter (fun p => p.1 ≠ k),
      access := rest }

/-- cachetools `LRUCache.__setitem__` at capacity 200: replace in place when
the key exists, otherwise evict least-recently-used entries down to capacity
and append. -/
def extract_setitem (ec : ExtractCache) (key : String) (d : Bytes) : ExtractCache :=
  if ec.entries.any (fun p => p.1 == key) then
    { ec with
      entries := ec.entries.map (fun p => if p.1 = key then (key, d) else p),
      access := ec.access.erase key ++ [key] }
  else
    let ec1 := extract_lru_pop^[ec.entries.length + 1 - 200] ec
    { ec1 with
      entries := ec1.entries ++ [(key, d)],
      access := ec1.access ++ [key] }

/-- core/archive_manager._MAX_EXTRACT_CACHE_SIZE (200MB). -/
def _MAX_EXTRACT_CACHE_SIZE : Int := 200 * 1024 * 1024

/-- The explicit "clear half the cache" step of the extract functions: take
the first half of the keys in iteration (insertion) order, pop each from the
cache, and subtract the popped payload lengths from the byte counter. -/
def extract_evict_half (ec : ExtractCache) : ExtractCache :=
  let ks := (ec.entries.map Prod.fst).take (ec.entries.length / 2)
  { entries := ec.entries.filter (fun p => !(ks.contains p.1)),
    access := ec.access.filter (fun k => !(ks.contains k)),
    size := ec.size -
      ((ec.entries.filter (fun p => ks.contains p.1)).map
        (fun p => (p.2.length : Int))).sum }

/-- The cache-admission block shared by the extract functions: payloads of
20MB or more bypass the cache; otherwise, if admitting would push the byte
counter past the budget, first clear half the cache, then insert and add the
payload length to the counter. -/
def extract_cache_store (ec : ExtractCache) (key : String) (d : Bytes) : ExtractCache :=
  if d.length < 20 * 1024 * 1024 then
    let ec1 := if ec.size + (d.length : Int) > _MAX_EXTRACT_CACHE_SIZE then
      extract_evict_half ec else ec
    let ec2 := extract_setitem ec1 key d
    { ec2 with size := ec1.size + (d.length : Int) }
  else ec

/-- Errors `extract_from_zip` can surface: a propagated zipfile error, the
`FileNotFoundError` it raises itself, the `ValueError` of an unsupported
format, or a branch outside this model (rar/7z extraction). -/
inductive PyErr where
  | zipRaise (e : ZipErr)
  | fileNotFound
  | valueErr
  | unmodelled
deriving DecidableEq, Repr

/-- One iteration of the zipfile fallback in `extract_from_zip`: obtain a
(possibly cached) handle and read the member through it.  The state reflects
any handle caching that happened before the error. -/
def zipAttempt (files : String → Option ZipFileData) (st : ArchiveCaches)
    (path inner : String) : Except ZipErr Bytes × ArchiveCaches :=
  match _get_cached_zip_handle files st path with
  | .error e => (.error e, st)
  | .ok (h, st1) => (h.read inner, st1)

/-- core/archive_manager.extract_from_zip.  Check the extract cache; then try
libarchive when installed (any of its exceptions is swallowed); then the
zipfile fallback with the cached handle.  A `KeyError`/`BadZipFile`/`OSError`
from the first attempt evicts the handle and retries exactly once with a
fresh one; a `KeyError` from the retry becomes `FileNotFoundError`, other
retry errors propagate.  The third component counts the zipfile attempts. -/
def extract_from_zip (lib : Option (String → String → Except Unit Bytes))
    (files : String → Option ZipFileData) (st : ArchiveCaches)
    (path inner : String) : Except PyErr Bytes × ArchiveCaches × Nat :=
  let key := path ++ "::" ++ inner
  match extract_cache_get st.extract key with
  | (some d, ec') => (.ok d, { st with extract := ec' }, 0)
  | (none, _) =>
    let libData : Option Bytes :=
      match lib with
      | some f => match f path inner with | .ok d => some d | .error _ => none
      | none => none
    match libData with
    | some d => (.ok d, { st with extract := extract_cache_store st.extract key d }, 0)
    | none =>
      match zipAttempt files st path inner with
      | (.ok d, st1) => (.ok d, { st1 with extract := extract_cache_store st1.extract key d }, 1)
      | (.error e, st1) =>
        if e = .otherErr then (.error (.zipRaise e), st1, 1)
        else
          let st2 := _close_archive_handles st1 path
          match zipAttempt files st2 path inner with
          | (.ok d, st3) =>
            (.ok d, { st3 with extract := extract_cache_store st3.extract key d }, 2)
          | (.error e2, st3) =>
            if e2 = .keyError then (.error .fileNotFound, st3, 2)
            else (.error (.zipRaise e2), st3, 2)

/-- core/archive_manager.extract_file: normalize the inner path separators
and dispatch on the detected format.  Only the Zip branch is modelled; the
rar/7z extraction branches are outside every claim. -/
def extract_file (lib : Option (String → String → Except Unit Bytes))
    (files : String → Option ZipFileData) (st : ArchiveCaches)
    (path inner : String) : Except PyErr Bytes × ArchiveCaches × Nat :=
  let normalized := normalizeSep inner
  match detect_archive_type path with
  | some "zip" => extract_from_zip lib files st path normalized
  | some _ => (.error .unmodelled, st, 0)
  | none => (.error .valueErr, st, 0)

/-- The rewrite loop of `delete_zip_entry`: every entry whose name differs
from the target is written to the temp archive with the payload obtained by
`zf_in.read(item.filename)` — a read by name, which under duplicate names
yields the payload of the last entry with that name. -/
def rewriteZipWithout (z : ZipFileData) (inner : String) : ZipFileData :=
  (z.filter (fun e => e.filename ≠ inner)).map
    (fun e => { e with data := (zip_read_by_name z e.filename).getD [] })

/-- core/archive_manager.delete_zip_entry: rewrite all other entries into a
sibling temp archive, atomically move it over the original, and drop the
index-cache entry for the path.  Opening a missing archive raises.  The
handle cache and the extract cache are not touched. -/
def delete_zip_entry (files : String → Option ZipFileData) (st : ArchiveCaches)
    (path inner : String) :
    Except PyErr ((String → Option ZipFileData) × ArchiveCaches) :=
  match files path with
  | none => .error (.zipRaise .osError)
  | some z =>
    .ok (updateTable files path (rewriteZipWithout z inner),
      { st with archive_cache := st.archive_cache.filter (fun q => q.1 ≠ path) })

/-- The filesystem after `delete_zip_entry` crashes mid-rewrite, with `k`
entries already written to the sibling temp file and the replace step never
reached: only the temp path has been created; the original is untouched. -/
def delete_zip_entry_crashed (files : String → Option ZipFileData)
    (path inner : String) (k : Nat) : String → Option ZipFileData :=
  match files path with
  | none => files
  | some z => updateTable files (path ++ ".tmp") ((rewriteZipWithout z inner).take k)

/-- The bytes actually resident in the extract cache. -/
def residentExtractBytes (ec : ExtractCache) : Nat :=
  (ec.entries.map (fun p => p.2.length)).sum

/-- One entry of a RAR archive as `rarfile` exposes it. -/
structure RarInfo where
  filename : String
  data : Bytes
  is_dir : Bool
  mtime : Option Int
deriving DecidableEq, Repr

/-- The `ArchiveEntry` built for one RAR entry at enumeration index `idx`. -/
def entryOfRarInfo (idx : Nat) (info : RarInfo) : ArchiveEntry :=
  { name := pathName info.filename
    path := info.filename
    size := info.data.length
    isDir := info.is_dir
    isImage := is_image_file info.filename
    entryIndex := idx
    modified := info.mtime }

/-- core/archive_manager.list_rar_contents, with the same swallow-and-return
error structure as the Zip variant. -/
def list_rar_contents (openRes : Except Unit (List RarInfo × Bool)) : List ArchiveEntry :=
  match openRes with
  | .error _ => []
  | .ok (infos, _raisedMidway) =>
    infos.enum.filterMap (fun p =>
      if p.2.is_dir then none
      else some (entryOfRarInfo p.1 p.2))

/-- Pillow's `round_aspect` helper inside `Image.thumbnail`: of the floor and
the ceiling of the exact value, take the one whose error under `key` is
smaller (the floor on ties, as Python's `min` keeps the first argument), and
never go below 1. -/
def round_aspect (v : ℚ) (key : ℤ → ℚ) : ℤ :=
  max (if key ⌊v⌋ ≤ key ⌈v⌉ then ⌊v⌋ else ⌈v⌉) 1

/-- Modelled from Pillow's `Image.thumbnail((max_size, max_size))` size
computation, which `generate_image_thumbnail` invokes after a mode
conversion that preserves dimensions; the encoded output has exactly these
dimensions.  Pillow's float division is modelled with exact rationals.  An
image that already fits in the box is returned unresized. -/
def generate_image_thumbnail_size (w h max_size : ℕ) : ℕ × ℕ :=
  if max_size ≥ w ∧ max_size ≥ h then (w, h)
  else
    let aspect : ℚ := (w : ℚ) / (h : ℚ)
    if (max_size : ℚ) / (max_size : ℚ) ≥ aspect then
      ((round_aspect ((max_size : ℚ) * aspect)
          (fun n => |aspect - (n : ℚ) / (max_size : ℚ)|)).toNat,
        max_size)
    else
      (max_size,
        (round_aspect ((max_size : ℚ) / aspect)
          (fun n => if n = 0 then 0 else |aspect - (max_size : ℚ) / (n : ℚ)|)).toNat)

/-- Keys of the nine one-byte extract-cache admissions. -/
def c3TinyKeys : List String := ["t1", "t2", "t3", "t4", "t5", "t6", "t7", "t8", "t9"]

/-- Keys of the eleven 19MiB extract-cache admissions. -/
def c3BigKeys : List String :=
  ["b01", "b02", "b03", "b04", "b05", "b06", "b07", "b08", "b09", "b10", "b11"]

/-- A sequence of extract-cache admissions: nine one-byte payloads followed
by eleven 19MiB payloads, each below the per-item ceiling. -/
def c3Inserts : List (String × Bytes) :=
  c3TinyKeys.map (fun k => (k, List.replicate 1 0)) ++
  c3BigKeys.map (fun k => (k, List.replicate 19922944 0))

/-- The extract cache after admitting `c3Inserts` in order from a cold start. -/
def c3Run : ExtractCache :=
  c3Inserts.foldl (fun ec p => extract_cache_store ec p.1 p.2) emptyExtract

/-- A cache state whose byte counter sits exactly at the budget, with two
resident one-byte entries; the next admission must trigger the half-evict. -/
def c3OverfullCache : ExtractCache :=
  { entries := [("a", [0]), ("b", [0])], access := ["a", "b"], size := 209715200 }

/-- C1: saving a record and then looking it up with a different mtime token
returns the stored bytes instead of missing.  `get_thumbnail_if_valid` never
reads its `file_mtime` argument, and even a `size` mismatch returns the
stored value through the legacy-compatibility branch. The repository's own
test `test_cache_invalidation_on_mtime_change` asserts the lookup with a
changed mtime must return `None`; the code contradicts it. -/
theorem c1_mtime_ignored :
    (get_thumbnail_if_valid
        (save_thumbnail (fun _ => none) "k" (.int 12345) (.int 0) (.bytes [1, 2, 3])
          none "2024-01-01 00:00:00")
        "k" 12345 1111 = some (.bytes [1, 2, 3])) ∧
    (get_thumbnail_if_valid
        (save_thumbnail (fun _ => none) "k" (.int 12345) (.int 0) (.bytes [1, 2, 3])
          none "2024-01-01 00:00:00")
        "k" 12345 2222 = some (.bytes [1, 2, 3])) ∧
    (get_thumbnail_if_valid
        (save_thumbnail (fun _ => none) "k" (.int 12345) (.int 0) (.bytes [1, 2, 3])
          none "2024-01-01 00:00:00")
        "k" 777 2222 = some (.bytes [1, 2, 3])) := by
  refine ⟨?_, ?_, ?_⟩ <;> rfl

/-- C2: two consecutive `generate_file_thumbnail` calls on an unchanged file.
The first call produces and returns the thumbnail bytes but persists the
integer mtime into the `value` column (swapped positional arguments at the
`save_thumbnail` call site, contradicting that method's declared parameter
types `size: int, ghash: int, data: bytes`).  The second call is served from
the cache without decoding, but returns the integer `5`, not the first
call's bytes. -/
theorem c2_second_call_returns_wrong_value :
    (generate_file_thumbnail ⟨fun _ => none, fun _ => none⟩ "f" true 100 5 1000 "D1"
        "file" (.produced [9, 9, 9])).result = some (.bytes [9, 9, 9]) ∧
    (generate_file_thumbnail
        (generate_file_thumbnail ⟨fun _ => none, fun _ => none⟩ "f" true 100 5 1000 "D1"
          "file" (.produced [9, 9, 9])).db
        "f" true 100 5 2000 "D2" "file" (.produced [9, 9, 9])).result = some (.int 5) ∧
    (generate_file_thumbnail
        (generate_file_thumbnail ⟨fun _ => none, fun _ => none⟩ "f" true 100 5 1000 "D1"
          "file" (.produced [9, 9, 9])).db
        "f" true 100 5 2000 "D2" "file" (.produced [9, 9, 9])).decodeInvoked = false ∧
    some (PyVal.int 5) ≠ some (PyVal.bytes [9, 9, 9]) := by
  refine ⟨rfl, rfl, rfl, by decide⟩

/-- C5 counterexample: a failed generation attempt does not increment
`retry_count` by exactly 1.  With an existing record at `retry_count = 2`
whose cooldown has expired, `is_failed` deletes the record before the
attempt runs, and `mark_failed` then inserts a fresh record with
`retry_count = 1` — not 3. -/
theorem c5_retry_reset_counterexample :
    ((generate_file_thumbnail
        ⟨fun _ => none,
          updateTable (fun _ => none) "k"
            { reason := "generation_failed", retry_count := 2, last_attempt := some 0,
              error_message := "" }⟩
        "k" true 100 5 4000 "T" "file" (.raised "boom")).db.failed "k").map
      FailedRow.retry_count = some 1 ∧
    some 1 ≠ some (2 + 1) := by
  exact ⟨rfl, by decide⟩

/-- C5 as amended: `retry_count ≥ 3` short-circuits every lookup with no
decode until the record is explicitly cleared; below 3 the record blocks
regeneration exactly while the cooldown has not elapsed; `mark_failed`'s
upsert adds 1 to the stored count (starting from 0 for a fresh key); but a
failed attempt that runs after the cooldown expired leaves `retry_count = 1`,
because `is_failed` deletes the stale record before the attempt. -/
theorem c5_failure_backoff :
    (∀ (failed : String → Option FailedRow) (key : String) (now : Int) (r : FailedRow),
      failed key = some r → 3 ≤ r.retry_count →
      is_failed failed key now 3600 = (true, failed)) ∧
    (∀ (db : DBState) (key : String) (fs mt now : Int) (nowStr cat : String)
        (gen : GenOutcome) (r : FailedRow),
      db.failed key = some r → 3 ≤ r.retry_count →
      get_thumbnail_if_valid db.thumbs key fs mt = none →
      generate_file_thumbnail db key true fs mt now nowStr cat gen = ⟨none, db, false⟩) ∧
    (∀ (failed : String → Option FailedRow) (key : String) (now : Int) (r : FailedRow) (t : Int),
      failed key = some r → r.retry_count < 3 → r.last_attempt = some t →
      ((is_failed failed key now 3600).1 = true ↔ now - t < 3600)) ∧
    (∀ (failed : String → Option FailedRow) (key err reason : String) (now : Int),
      ((mark_failed failed key err reason now) key).map FailedRow.retry_count
        = some ((((failed key).map FailedRow.retry_count).getD 0) + 1)) ∧
    (∀ (db : DBState) (key : String) (fs mt now : Int) (nowStr cat msg : String)
        (r : FailedRow) (t : Int),
      db.failed key = some r → r.retry_count < 3 → r.last_attempt = some t →
      3600 ≤ now - t →
      get_thumbnail_if_valid db.thumbs key fs mt = none →
      ((generate_file_thumbnail db key true fs mt now nowStr cat
          (.raised msg)).db.failed key).map FailedRow.retry_count = some 1) ∧
    (∀ (failed : String → Option FailedRow) (key : String),
      (remove_failed failed key) key = none) := by
  refine ⟨?_, ?_, ?_, ?_, ?_, ?_⟩
  · intro failed key now r hr h3
    simp [is_failed, hr, h3]
  · intro db key fs mt now nowStr cat gen r hr h3 hmiss
    cases db with
    | mk thumbs failed =>
      simp only [generate_file_thumbnail] at *
      simp [hmiss, is_failed, hr, h3]
  · intro failed key now r t hr hlt ht
    simp [is_failed, hr, Nat.not_le.mpr hlt, ht]
    split <;> simp_all
  · intro failed key err reason now
    cases h : failed key with
    | none => simp [mark_failed, h, updateTable]
    | some r => simp [mark_failed, h, updateTable]
  · intro db key fs mt now nowStr cat msg r t hr hlt ht helapsed hmiss
    cases db with
    | mk thumbs failed =>
      simp only [generate_file_thumbnail]
      simp only at hr hmiss
      have hnotlt : ¬ (now - t < 3600) := by omega
      simp [hmiss, is_failed, hr, Nat.not_le.mpr hlt, ht, hnotlt, mark_failed,
        eraseTable, updateTable]
  · intro failed key
    simp [remove_failed, eraseTable]

/-- Witness for `c5_failure_backoff` at concrete inputs. -/
theorem c5_failure_backoff_witness :
    (is_failed (updateTable (fun _ => none) "k"
        { reason := "x", retry_count := 3, last_attempt := some 0, error_message := "" })
        "k" 100 3600
      = (true, updateTable (fun _ => none) "k"
        { reason := "x", retry_count := 3, last_attempt := some 0, error_message := "" })) ∧
    ((is_failed (updateTable (fun _ => none) "k"
        { reason := "x", retry_count := 1, last_attempt := some 0, error_message := "" })
        "k" 100 3600).1 = true ↔ (100 : Int) - 0 < 3600) ∧
    ((mark_failed (fun _ => none) "k" "e" "generation_failed" 7) "k").map
      FailedRow.retry_count = some ((((none : Option FailedRow).map FailedRow.retry_count).getD 0) + 1) ∧
    ((generate_file_thumbnail
        ⟨fun _ => none, updateTable (fun _ => none) "k"
          { reason := "x", retry_count := 2, last_attempt := some 0, error_message := "" }⟩
        "k" true 100 5 4000 "T" "file" (.raised "boom")).db.failed "k").map
      FailedRow.retry_count = some 1 ∧
    (remove_failed (fun _ => none) "k") "k" = none := by
  refine ⟨?_, ?_, ?_, ?_, ?_⟩
  · exact c5_failure_backoff.1 _ "k" 100
      { reason := "x", retry_count := 3, last_attempt := some 0, error_message := "" }
      (by simp [updateTable]) (by decide)
  · exact c5_failure_backoff.2.2.1 _ "k" 100
      { reason := "x", retry_count := 1, last_attempt := some 0, error_message := "" }
      0 (by simp [updateTable]) (by decide) rfl
  · exact c5_failure_backoff.2.2.2.1 (fun _ => none) "k" "e" "generation_failed" 7
  · exact c5_failure_backoff.2.2.2.2.1 _ "k" 100 5 4000 "T" "file" "boom"
      { reason := "x", retry_count := 2, last_attempt := some 0, error_message := "" }
      0 (by simp [updateTable]) (by decide) rfl (by decide) rfl
  · exact c5_failure_backoff.2.2.2.2.2 (fun _ => none) "k"

/-- C4 counterexample: a backend error that interrupts enumeration after one
entry yields that one entry, not the empty listing — the `except` handler
returns whatever the loop accumulated. -/
theorem c4_partial_listing_counterexample :
    list_zip_contents (.ok ([⟨"a.jpg", [1], none⟩], true)) =
      [entryOfZipInfo 0 ⟨"a.jpg", [1], none⟩] ∧
    list_zip_contents (.ok ([⟨"a.jpg", [1], none⟩], true)) ≠ [] := by
  constructor
  · decide
  · decide

/-- C4 as amended: backend errors never propagate out of the listing
functions; an error at open (before any entry) yields the empty listing;
an error that interrupts enumeration midway is swallowed and the entries
accumulated up to that point are returned — a partial listing, not the empty
one. -/
theorem c4_error_swallowed_listing :
    (list_zip_contents (Except.error ()) = []) ∧
    (list_rar_contents (Except.error ()) = []) ∧
    (∀ (infos : List ZipInfo) (raised : Bool),
      list_zip_contents (.ok (infos, raised)) = list_zip_contents (.ok (infos, false))) ∧
    (∀ (infos : List RarInfo) (raised : Bool),
      list_rar_contents (.ok (infos, raised)) = list_rar_contents (.ok (infos, false))) :=
  ⟨rfl, rfl, fun _ _ => rfl, fun _ _ => rfl⟩

theorem find?_filter_ne_path {l : List (String × ZipHandle)} {path : String} :
    (l.filter (fun q => q.1 ≠ path)).find? (fun q => q.1 == path) = none := by
  rw [List.find?_eq_none]
  intro x hx
  have hmem := List.of_mem_filter hx
  simp only [decide_eq_true_eq] at hmem
  simpa using hmem

theorem lookupHandle_close (st : ArchiveCaches) (path : String) :
    lookupHandle (_close_archive_handles st path).handle_cache path = none := by
  simp [_close_archive_handles, lookupHandle, find?_filter_ne_path]

theorem lookupHandle_take_cons (hh : ZipHandle) (l : List (String × ZipHandle))
    (path : String) (n : Nat) :
    lookupHandle (((path, hh) :: l).take (n + 1)) path = some hh := by
  simp [lookupHandle, List.take_succ_cons, List.find?_cons_of_pos]

/-- C9: stale-handle retry in the zipfile fallback of `extract_from_zip`.
With a cache miss, no libarchive, a cached handle for the path that raises a
retryable error, and the file freshly openable: the broken handle is evicted
and the read retried exactly once with a fresh handle; a successful retry
returns the member bytes and leaves the fresh handle cached; a retry that
fails (the member is absent) surfaces `FileNotFoundError`. -/
theorem c9_stale_handle_retry (files : String → Option ZipFileData) (st : ArchiveCaches)
    (path inner : String) (h : ZipHandle) (e : ZipErr) (z : ZipFileData)
    (hmiss : st.extract.entries.find? (fun p => p.1 == path ++ "::" ++ inner) = none)
    (hcached : lookupHandle st.handle_cache path = some h)
    (hbroken : h.broken = some e) (hretryable : e ≠ .otherErr)
    (hfresh : files path = some z) :
    (∀ B, zip_read_by_name z inner = some B →
      (extract_from_zip none files st path inner).1 = .ok B ∧
      (extract_from_zip none files st path inner).2.2 = 2 ∧
      lookupHandle (extract_from_zip none files st path inner).2.1.handle_cache path
        = some ⟨z, none⟩) ∧
    (zip_read_by_name z inner = none →
      (extract_from_zip none files st path inner).1 = .error .fileNotFound ∧
      (extract_from_zip none files st path inner).2.2 = 2) := by
  constructor
  · intro B hB
    simp only [extract_from_zip, extract_cache_get, hmiss, zipAttempt,
      _get_cached_zip_handle, hcached, ZipHandle.read, hbroken, hretryable,
      ite_false, lookupHandle_close, hfresh, hB]
    refine ⟨by trivial, by trivial, ?_⟩
    exact lookupHandle_take_cons _ _ _ 9
  · intro hnone
    simp only [extract_from_zip, extract_cache_get, hmiss, zipAttempt,
      _get_cached_zip_handle, hcached, ZipHandle.read, hbroken, hretryable,
      ite_false, lookupHandle_close, hfresh, hnone]
    exact ⟨by trivial, by trivial⟩

/-- Witness for `c9_stale_handle_retry`: a one-member archive, a broken
cached handle, and a successful retry. -/
theorem c9_stale_handle_retry_witness :
    (extract_from_zip none (updateTable (fun _ => none) "a.zip" [⟨"1.jpg", [7], none⟩])
      { emptyCaches with handle_cache := [("a.zip", ⟨[], some .badZipFile⟩)] }
      "a.zip" "1.jpg").1 = .ok [7] ∧
    (extract_from_zip none (updateTable (fun _ => none) "a.zip" [⟨"1.jpg", [7], none⟩])
      { emptyCaches with handle_cache := [("a.zip", ⟨[], some .badZipFile⟩)] }
      "a.zip" "1.jpg").2.2 = 2 ∧
    lookupHandle (extract_from_zip none
      (updateTable (fun _ => none) "a.zip" [⟨"1.jpg", [7], none⟩])
      { emptyCaches with handle_cache := [("a.zip", ⟨[], some .badZipFile⟩)] }
      "a.zip" "1.jpg").2.1.handle_cache "a.zip" = some ⟨[⟨"1.jpg", [7], none⟩], none⟩ :=
  (c9_stale_handle_retry
    (updateTable (fun _ => none) "a.zip" [⟨"1.jpg", [7], none⟩])
    { emptyCaches with handle_cache := [("a.zip", ⟨[], some .badZipFile⟩)] }
    "a.zip" "1.jpg" ⟨[], some .badZipFile⟩ .badZipFile [⟨"1.jpg", [7], none⟩]
    (by decide) (by decide) (by decide) (by decide) (by simp [updateTable])).1
    [7] (by decide)

theorem zip_read_by_name_of_nodup {z : ZipFileData}
    (hnd : (z.map ZipInfo.filename).Nodup) {e : ZipInfo} (he : e ∈ z) :
    zip_read_by_name z e.filename = some e.data := by
  induction z with
  | nil => cases he
  | cons f rest ih =>
    simp only [List.map_cons, List.nodup_cons] at hnd
    rcases List.mem_cons.mp he with rfl | hmem
    · unfold zip_read_by_name
      rw [List.reverse_cons, List.find?_append]
      have hnone : rest.reverse.find? (fun x => x.filename == e.filename) = none := by
        rw [List.find?_eq_none]
        intro x hx
        intro hbeq
        apply hnd.1
        rw [List.mem_map]
        refine ⟨x, List.mem_reverse.mp hx, ?_⟩
        exact eq_of_beq hbeq
      rw [hnone]
      simp
    · unfold zip_read_by_name
      rw [List.reverse_cons, List.find?_append]
      have hsome := ih hnd.2 hmem
      unfold zip_read_by_name at hsome
      cases hfind : rest.reverse.find? (fun x => x.filename == e.filename) with
      | none => rw [hfind] at hsome; simp at hsome
      | some y =>
        rw [hfind] at hsome
        simp at hsome
        simp [hfind, hsome]

theorem rewriteZipWithout_eq_filter {z : ZipFileData} (inner : String)
    (hnd : (z.map ZipInfo.filename).Nodup) :
    rewriteZipWithout z inner = z.filter (fun e => e.filename ≠ inner) := by
  unfold rewriteZipWithout
  have : ∀ e ∈ z.filter (fun e => e.filename ≠ inner),
      ({ e with data := (zip_read_by_name z e.filename).getD [] } : ZipInfo) = e := by
    intro e he
    have hmem : e ∈ z := List.mem_of_mem_filter he
    rw [zip_read_by_name_of_nodup hnd hmem]
    rfl
  calc (z.filter (fun e => e.filename ≠ inner)).map
        (fun e => { e with data := (zip_read_by_name z e.filename).getD [] })
      = (z.filter (fun e => e.filename ≠ inner)).map id := List.map_congr_left this
    _ = z.filter (fun e => e.filename ≠ inner) := List.map_id _

theorem string_ne_append_tmp (path : String) : path ≠ path ++ ".tmp" := by
  intro heq
  have hlen := congrArg String.length heq
  rw [String.length_append] at hlen
  have h4 : ".tmp".length = 4 := rfl
  omega

/-- C8 as amended: on an archive whose inner names are distinct,
`delete_zip_entry` atomically replaces the archive with exactly the original
entries minus the target, bytes unchanged, and drops the index-cache entry
for the path while touching no other cache and no other file; a crash midway
through the rewrite leaves the original archive untouched (only a sibling
temp file exists).  Under duplicate inner names the per-entry bytes are not
preserved (see the counterexample): the rewrite reads entries by name, which
yields the payload of the last entry with that name. -/
theorem c8_delete_rewrite (files : String → Option ZipFileData) (st : ArchiveCaches)
    (path inner : String) (z : ZipFileData)
    (hz : files path = some z) (hnd : (z.map ZipInfo.filename).Nodup) :
    delete_zip_entry files st path inner =
      .ok (updateTable files path (z.filter (fun e => e.filename ≠ inner)),
        { st with archive_cache := st.archive_cache.filter (fun q => q.1 ≠ path) }) ∧
    (∀ q, q ≠ path → updateTable files path (z.filter (fun e => e.filename ≠ inner)) q = files q) ∧
    (∀ k, delete_zip_entry_crashed files path inner k path = files path) := by
  refine ⟨?_, ?_, ?_⟩
  · simp only [delete_zip_entry, hz]
    rw [rewriteZipWithout_eq_filter inner hnd]
  · intro q hq
    simp [updateTable, hq]
  · intro k
    simp only [delete_zip_entry_crashed, hz]
    simp [updateTable, string_ne_append_tmp path, hz]

/-- C8 counterexample: with duplicate inner names, the rewrite does not keep
each remaining entry's bytes.  Deleting `"t"` from the archive
`[("a", [1]), ("a", [2]), ("t", [0])]` produces `[("a", [2]), ("a", [2])]`:
both surviving entries get the payload of the last `"a"`. -/
theorem c8_duplicate_names_counterexample :
    ((delete_zip_entry
        (updateTable (fun _ => none) "x.zip"
          [⟨"a", [1], none⟩, ⟨"a", [2], none⟩, ⟨"t", [0], none⟩])
        emptyCaches "x.zip" "t").toOption.map (fun r => r.1 "x.zip"))
      = some (some [⟨"a", [2], none⟩, ⟨"a", [2], none⟩]) ∧
    some (some [(⟨"a", [2], none⟩ : ZipInfo), ⟨"a", [2], none⟩])
      ≠ some (some [(⟨"a", [1], none⟩ : ZipInfo), ⟨"a", [2], none⟩]) := by
  constructor
  · simp only [delete_zip_entry, updateTable]
    decide
  · decide

/-- Witness for `c8_delete_rewrite` on a two-entry archive. -/
theorem c8_delete_rewrite_witness :
    delete_zip_entry (updateTable (fun _ => none) "x.zip" [⟨"a", [1], none⟩, ⟨"t", [0], none⟩])
      emptyCaches "x.zip" "t" =
      .ok (updateTable (updateTable (fun _ => none) "x.zip" [⟨"a", [1], none⟩, ⟨"t", [0], none⟩])
          "x.zip" ([⟨"a", [1], none⟩, ⟨"t", [0], none⟩].filter (fun e => e.filename ≠ "t")),
        { emptyCaches with
          archive_cache := emptyCaches.archive_cache.filter (fun q => q.1 ≠ "x.zip") }) ∧
    (∀ k, delete_zip_entry_crashed
      (updateTable (fun _ => none) "x.zip" [⟨"a", [1], none⟩, ⟨"t", [0], none⟩])
      "x.zip" "t" k "x.zip" =
      updateTable (fun _ => none) "x.zip" [⟨"a", [1], none⟩, ⟨"t", [0], none⟩] "x.zip") := by
  have h := c8_delete_rewrite
    (updateTable (fun _ => none) "x.zip" [⟨"a", [1], none⟩, ⟨"t", [0], none⟩])
    emptyCaches "x.zip" "t" [⟨"a", [1], none⟩, ⟨"t", [0], none⟩]
    (by simp [updateTable]) (by decide)
  exact ⟨h.1, h.2.2⟩

/-- C10: `delete_zip_entry` invalidates only the index cache: the handle
cache and the extract cache (entries, LRU order and byte counter) are left
unchanged, so a subsequent `extract_file` for the just-deleted entry is still
served its old bytes from the extract cache. -/
theorem c10_delete_leaves_extract_cache (files : String → Option ZipFileData)
    (st : ArchiveCaches) (path inner : String) (z : ZipFileData) (B : Bytes)
    (hdet : detect_archive_type path = some "zip")
    (hnorm : normalizeSep inner = inner)
    (hhit : (extract_cache_get st.extract (path ++ "::" ++ inner)).1 = some B)
    (hz : files path = some z) :
    ∃ f' st', delete_zip_entry files st path inner = .ok (f', st') ∧
      st'.handle_cache = st.handle_cache ∧
      st'.extract = st.extract ∧
      (extract_file none f' st' path inner).1 = .ok B := by
  refine ⟨updateTable files path (rewriteZipWithout z inner),
    { st with archive_cache := st.archive_cache.filter (fun q => q.1 ≠ path) },
    ?_, rfl, rfl, ?_⟩
  · simp only [delete_zip_entry, hz]
  · unfold extract_file
    rw [hdet, hnorm]
    unfold extract_cache_get at hhit
    cases hfind : st.extract.entries.find? (fun p => p.1 == path ++ "::" ++ inner) with
    | none => rw [hfind] at hhit; simp at hhit
    | some p =>
      rw [hfind] at hhit
      simp only at hhit
      injection hhit with hB
      simp [extract_from_zip, extract_cache_get, hfind, hB]

/-- Witness for `c10_delete_leaves_extract_cache` with the deleted entry's
bytes resident in the extract cache. -/
theorem c10_delete_leaves_extract_cache_witness :
    ∃ f' st', delete_zip_entry (updateTable (fun _ => none) "a.zip" [⟨"1.jpg", [7], none⟩])
        { emptyCaches with
          extract := { entries := [("a.zip::1.jpg", [7])], access := ["a.zip::1.jpg"], size := 1 } }
        "a.zip" "1.jpg" = .ok (f', st') ∧
      st'.handle_cache = ({ emptyCaches with
          extract := { entries := [("a.zip::1.jpg", [7])], access := ["a.zip::1.jpg"], size := 1 } }
            : ArchiveCaches).handle_cache ∧
      st'.extract = ({ emptyCaches with
          extract := { entries := [("a.zip::1.jpg", [7])], access := ["a.zip::1.jpg"], size := 1 } }
            : ArchiveCaches).extract ∧
      (extract_file none f' st' "a.zip" "1.jpg").1 = .ok [7] :=
  c10_delete_leaves_extract_cache
    (updateTable (fun _ => none) "a.zip" [⟨"1.jpg", [7], none⟩])
    { emptyCaches with
      extract := { entries := [("a.zip::1.jpg", [7])], access := ["a.zip::1.jpg"], size := 1 } }
    "a.zip" "1.jpg" [⟨"1.jpg", [7], none⟩] [7]
    (by decide) (by decide) (by decide) (by simp [updateTable])

/-- Filtering out everything whose projected key lies in the first `m`
projected keys of a key-distinct list leaves exactly the elements after
position `m`. -/
theorem filter_not_mem_take {β : Type} (f : β → String) :
    ∀ (l : List β) (m : Nat), ((l.map f).Nodup) →
      l.filter (fun x => !(((l.map f).take m).contains (f x))) = l.drop m := by
  intro l
  induction l with
  | nil => intro m _; simp
  | cons x xs ih =>
    intro m hnd
    simp only [List.map_cons, List.nodup_cons] at hnd
    cases m with
    | zero =>
      simp
    | succ m =>
      simp only [List.map_cons, List.take_succ_cons, List.drop_succ_cons]
      rw [List.filter_cons]
      rw [if_neg (by simp)]
      have hcongr : ∀ a ∈ xs,
          (!((f x :: (xs.map f).take m).contains (f a))) =
          (!(((xs.map f).take m).contains (f a))) := by
        intro a ha
        have hne : f a ≠ f x := by
          intro hfa
          exact hnd.1 (hfa ▸ List.mem_map_of_mem f ha)
        simp [List.contains_cons, hne]
      rw [List.filter_congr hcongr]
      exact ih m hnd.2

/-- Keeping exactly the elements whose projected key lies in the first `m`
projected keys of a key-distinct list gives its first `m` elements. -/
theorem filter_mem_take {β : Type} (f : β → String) :
    ∀ (l : List β) (m : Nat), ((l.map f).Nodup) →
      l.filter (fun x => (((l.map f).take m).contains (f x))) = l.take m := by
  intro l
  induction l with
  | nil => intro m _; simp
  | cons x xs ih =>
    intro m hnd
    simp only [List.map_cons, List.nodup_cons] at hnd
    cases m with
    | zero =>
      simp
    | succ m =>
      simp only [List.map_cons, List.take_succ_cons]
      rw [List.filter_cons]
      rw [if_pos (by simp)]
      have hcongr : ∀ a ∈ xs,
          (((f x :: (xs.map f).take m).contains (f a))) =
          ((((xs.map f).take m).contains (f a))) := by
        intro a ha
        have hne : f a ≠ f x := by
          intro hfa
          exact hnd.1 (hfa ▸ List.mem_map_of_mem f ha)
        simp [List.contains_cons, hne]
      rw [List.filter_congr hcongr]
      rw [ih m hnd.2]

/-- A fresh small admission that fits within the budget and capacity simply
appends the entry and adds its length to the byte counter. -/
theorem extract_cache_store_fresh (ec : ExtractCache) (k : String) (d : Bytes)
    (hlen : d.length < 20 * 1024 * 1024)
    (hsize : ec.size + (d.length : Int) ≤ _MAX_EXTRACT_CACHE_SIZE)
    (hfresh : k ∉ ec.entries.map Prod.fst)
    (hcount : ec.entries.length ≤ 199) :
    extract_cache_store ec k d =
      { entries := ec.entries ++ [(k, d)], access := ec.access ++ [k],
        size := ec.size + (d.length : Int) } := by
  have hany : ec.entries.any (fun p => p.1 == k) = false := by
    rw [List.any_eq_false]
    intro p hp
    simp only [beq_iff_eq]
    intro hpk
    exact hfresh (hpk ▸ List.mem_map_of_mem Prod.fst hp)
  have hover : ec.entries.length + 1 - 200 = 0 := by omega
  simp only [extract_cache_store, if_pos hlen, if_neg (not_lt.mpr hsize),
    extract_setitem, hany, Bool.false_eq_true, ite_false, hover,
    Function.iterate_zero, id_eq]

/-- A batch of fresh same-length admissions that stays within the budget and
capacity appends all the entries and adds the total length to the counter. -/
theorem extract_cache_store_batch (L : Nat) :
    ∀ (ks : List String) (ec : ExtractCache),
      L < 20 * 1024 * 1024 →
      ec.size + (ks.length : Int) * L ≤ _MAX_EXTRACT_CACHE_SIZE →
      ((ec.entries.map Prod.fst ++ ks).Nodup) →
      ec.entries.length + ks.length ≤ 200 →
      ((ks.foldl (fun e k => extract_cache_store e k (List.replicate L 0)) ec).entries
          = ec.entries ++ ks.map (fun k => (k, List.replicate L 0))) ∧
      ((ks.foldl (fun e k => extract_cache_store e k (List.replicate L 0)) ec).size
          = ec.size + (ks.length : Int) * L) := by
  intro ks
  induction ks with
  | nil =>
    intro ec _ _ _ _
    simp
  | cons k ks ih =>
    intro ec hL hsize hnd hcount
    have hnd' := hnd
    rw [List.nodup_append] at hnd'
    have hkfresh : k ∉ ec.entries.map Prod.fst := by
      intro hk
      exact hnd'.2.2 hk (List.mem_cons_self k ks)
    have hklen : 0 ≤ (ks.length : Int) * L := by positivity
    have hstep : extract_cache_store ec k (List.replicate L 0) =
        { entries := ec.entries ++ [(k, List.replicate L 0)],
          access := ec.access ++ [k],
          size := ec.size + (L : Int) } := by
      have := extract_cache_store_fresh ec k (List.replicate L 0)
        (by simpa using hL)
        (by
          simp only [List.length_replicate]
          simp only [List.length_cons] at hsize
          push_cast at hsize
          nlinarith)
        hkfresh
        (by simp at hcount; omega)
      simpa using this
    simp only [List.foldl_cons, hstep]
    have hih := ih
      { entries := ec.entries ++ [(k, List.replicate L 0)],
        access := ec.access ++ [k],
        size := ec.size + (L : Int) }
      hL
      (by
        show ec.size + (L : Int) + (ks.length : Int) * (L : Int) ≤ _MAX_EXTRACT_CACHE_SIZE
        simp only [List.length_cons] at hsize
        push_cast at hsize
        nlinarith)
      (by
        simp only [List.map_append, List.map_cons, List.map_singleton]
        rw [List.append_assoc]
        simpa using hnd)
      (by simp at hcount ⊢; omega)
    refine ⟨?_, ?_⟩
    · rw [hih.1]
      simp [List.append_assoc]
    · rw [hih.2]
      simp only [List.length_cons]
      push_cast
      ring

/-- A fresh small admission that would push the byte counter past the budget
first drops the first half of the entries (insertion order) and then
appends the new entry. -/
theorem extract_cache_store_trigger_entries (ec : ExtractCache) (k : String) (d : Bytes)
    (hlen : d.length < 20 * 1024 * 1024)
    (htrig : ec.size + (d.length : Int) > _MAX_EXTRACT_CACHE_SIZE)
    (hnd : (ec.entries.map Prod.fst).Nodup)
    (hfresh : k ∉ ec.entries.map Prod.fst)
    (hcount : ec.entries.length ≤ 200) :
    (extract_cache_store ec k d).entries =
      ec.entries.drop (ec.entries.length / 2) ++ [(k, d)] := by
  have hhalf : (extract_evict_half ec).entries = ec.entries.drop (ec.entries.length / 2) := by
    unfold extract_evict_half
    exact filter_not_mem_take Prod.fst ec.entries (ec.entries.length / 2) hnd
  have hany : ((ec.entries.drop (ec.entries.length / 2)).any (fun p => p.1 == k)) = false := by
    rw [List.any_eq_false]
    intro p hp
    simp only [beq_iff_eq]
    intro hpk
    exact hfresh (hpk ▸ List.mem_map_of_mem Prod.fst (List.mem_of_mem_drop hp))
  have hlendrop : (ec.entries.drop (ec.entries.length / 2)).length + 1 - 200 = 0 := by
    rw [List.length_drop]
    omega
  simp only [extract_cache_store, if_pos hlen, if_pos htrig, extract_setitem,
    hany, Bool.false_eq_true, ite_false, hlendrop, Function.iterate_zero, id_eq, hhalf]

/-- A fold over keyed payload pairs built from two key lists with fixed
payloads splits into two folds over the key lists. -/
theorem foldl_store_pairs_split (d1 d2 : Bytes) (t b : List String) (s : ExtractCache) :
    ((t.map (fun k => (k, d1)) ++ b.map (fun k => (k, d2))).foldl
        (fun ec p => extract_cache_store ec p.1 p.2) s)
      = b.foldl (fun e k => extract_cache_store e k d2)
          (t.foldl (fun e k => extract_cache_store e k d1) s) := by
  simp only [List.foldl_append, List.foldl_map]

/-- A fold of the admission step over a single key is one admission. -/
theorem foldl_store_singleton (d : Bytes) (s : ExtractCache) (k : String) :
    List.foldl (fun e k => extract_cache_store e k d) s [k]
      = extract_cache_store s k d := rfl

/-- C3, counterexample: after the `c3Inserts` sequence — all of whose
payloads are below the 20MB per-item ceiling — the bytes resident in the
extract cache total 219152384, exceeding the 200MB budget.  The nine tiny
entries absorb the half-evict triggered by the eleventh large admission, and
the byte counter is never adjusted by the LRU capacity eviction, so the
eleven 19MiB payloads are all resident at once. -/
theorem c3_counterexample :
    (200 * 1024 * 1024 : Nat) < residentExtractBytes c3Run ∧
    ∀ p ∈ c3Inserts, p.2.length < 20 * 1024 * 1024 := by
  constructor
  · have hA := extract_cache_store_batch 1 c3TinyKeys emptyExtract
      (by norm_num) (by decide) (by decide) (by decide)
    have hB := extract_cache_store_batch 19922944
      ["b01", "b02", "b03", "b04", "b05", "b06", "b07", "b08", "b09", "b10"]
      (c3TinyKeys.foldl (fun e k => extract_cache_store e k (List.replicate 1 0)) emptyExtract)
      (by norm_num) (by decide) (by decide) (by decide)
    have hkeys : ((["b01", "b02", "b03", "b04", "b05", "b06", "b07", "b08", "b09", "b10"].foldl
        (fun e k => extract_cache_store e k (List.replicate 19922944 0))
        (c3TinyKeys.foldl (fun e k => extract_cache_store e k (List.replicate 1 0))
          emptyExtract)).entries.map Prod.fst)
        = c3TinyKeys ++ ["b01", "b02", "b03", "b04", "b05", "b06", "b07", "b08", "b09", "b10"] := by
      rw [hB.1, hA.1]
      simp only [emptyExtract, List.nil_append, List.map_append, List.map_map,
        Function.comp_def, List.map_id']
    have hlen19 : (["b01", "b02", "b03", "b04", "b05", "b06", "b07", "b08", "b09", "b10"].foldl
        (fun e k => extract_cache_store e k (List.replicate 19922944 0))
        (c3TinyKeys.foldl (fun e k => extract_cache_store e k (List.replicate 1 0))
          emptyExtract)).entries.length = 19 := by
      rw [hB.1, hA.1]
      simp only [emptyExtract, List.nil_append, List.length_append, List.length_map]
      decide
    have hC := extract_cache_store_trigger_entries
      (((["b01", "b02", "b03", "b04", "b05", "b06", "b07", "b08", "b09", "b10"]).foldl
        (fun e k => extract_cache_store e k (List.replicate 19922944 0))
        (c3TinyKeys.foldl (fun e k => extract_cache_store e k (List.replicate 1 0))
          emptyExtract)))
      "b11" (List.replicate 19922944 0)
      (by rw [List.length_replicate]; decide)
      (by
        rw [List.length_replicate, hB.2, hA.2]
        decide)
      (by rw [hkeys]; decide)
      (by rw [hkeys]; decide)
      (by rw [hlen19]; omega)
    have hrun : c3Run = extract_cache_store
        (((["b01", "b02", "b03", "b04", "b05", "b06", "b07", "b08", "b09", "b10"]).foldl
          (fun e k => extract_cache_store e k (List.replicate 19922944 0))
          (c3TinyKeys.foldl (fun e k => extract_cache_store e k (List.replicate 1 0))
            emptyExtract)))
        "b11" (List.replicate 19922944 0) := by
      simp only [c3Run, c3Inserts]
      rw [foldl_store_pairs_split]
      rw [show c3BigKeys =
        ["b01", "b02", "b03", "b04", "b05", "b06", "b07", "b08", "b09", "b10"] ++ ["b11"] from rfl]
      rw [List.foldl_append]
      rw [foldl_store_singleton]
    have hfinal : (extract_cache_store
        (((["b01", "b02", "b03", "b04", "b05", "b06", "b07", "b08", "b09", "b10"]).foldl
          (fun e k => extract_cache_store e k (List.replicate 19922944 0))
          (c3TinyKeys.foldl (fun e k => extract_cache_store e k (List.replicate 1 0))
            emptyExtract)))
        "b11" (List.replicate 19922944 0)).entries
        = (["b01", "b02", "b03", "b04", "b05", "b06", "b07", "b08", "b09", "b10"].map
            (fun k => (k, List.replicate 19922944 0)))
          ++ [("b11", List.replicate 19922944 0)] := by
      rw [hC, hlen19, hB.1, hA.1]
      simp only [emptyExtract, List.nil_append]
      rw [show (19 : Nat) / 2 = 9 from by norm_num]
      rw [List.drop_left' (by simp only [List.length_map]; decide)]
    rw [hrun]
    simp only [residentExtractBytes, hfinal]
    simp only [List.map_append, List.map_cons, List.map_nil, List.length_replicate]
    decide
  · intro p hp
    simp only [c3Inserts, List.mem_append, List.mem_map] at hp
    rcases hp with ⟨k, _, rfl⟩ | ⟨k, _, rfl⟩ <;>
      · simp only [List.length_replicate]
        decide

/-- C3, amended: payloads of 20MB or more bypass the extract cache entirely,
and an admission that would push the byte counter past the 200MB budget
first evicts the oldest half of the entries (insertion order) before
admitting the new blob; but the resident-bytes-never-exceed-the-budget part
of the claim is false (see the counterexample), because the byte counter is
not adjusted by the cache's own capacity eviction and the half-evict can
remove entries that hold almost none of the resident bytes. -/
theorem c3_extract_budget_amended (ec : ExtractCache) (k : String) (d dbig : Bytes)
    (hlen : d.length < 20 * 1024 * 1024)
    (hbig : 20 * 1024 * 1024 ≤ dbig.length)
    (htrig : ec.size + (d.length : Int) > _MAX_EXTRACT_CACHE_SIZE)
    (hnd : (ec.entries.map Prod.fst).Nodup)
    (hfresh : k ∉ ec.entries.map Prod.fst)
    (hcount : ec.entries.length ≤ 200) :
    extract_cache_store ec k dbig = ec ∧
    (extract_cache_store ec k d).entries =
      ec.entries.drop (ec.entries.length / 2) ++ [(k, d)] :=
  ⟨by simp only [extract_cache_store, if_neg (not_lt.mpr hbig)],
   extract_cache_store_trigger_entries ec k d hlen htrig hnd hfresh hcount⟩

/-- Witness for `c3_extract_budget_amended` on a cache sitting exactly at
the budget with two resident one-byte entries. -/
theorem c3_extract_budget_amended_witness :
    (([0] : Bytes).length < 20 * 1024 * 1024) ∧
    (c3OverfullCache.size + ((([0] : Bytes).length : Int)) > _MAX_EXTRACT_CACHE_SIZE) ∧
    (extract_cache_store c3OverfullCache "k" (List.replicate (20 * 1024 * 1024) 0)
        = c3OverfullCache ∧
      (extract_cache_store c3OverfullCache "k" [0]).entries =
        c3OverfullCache.entries.drop (c3OverfullCache.entries.length / 2) ++ [("k", [0])]) :=
  ⟨by decide, by decide,
    c3_extract_budget_amended c3OverfullCache "k" [0] (List.replicate (20 * 1024 * 1024) 0)
      (by decide) (by rw [List.length_replicate]) (by decide) (by decide) (by decide) (by decide)⟩

/-- Two character sequences neither of which compares below the other are
equal. -/
theorem charListLt_eq_of_not :
    ∀ s t : List Char, charListLt s t = false → charListLt t s = false → s = t := by
  intro s
  induction s with
  | nil =>
    intro t h1 _
    cases t with
    | nil => rfl
    | cons c cs => simp [charListLt] at h1
  | cons c cs ih =>
    intro t h1 h2
    cases t with
    | nil => simp [charListLt] at h2
    | cons d ds =>
      by_cases hcd : c < d
      · simp [charListLt, hcd] at h1
      · by_cases hdc : d < c
        · simp [charListLt, hdc] at h2
        · simp only [charListLt, if_neg hcd, if_neg hdc] at h1 h2
          have hce : c = d := le_antisymm (not_lt.mp hdc) (not_lt.mp hcd)
          rw [hce, ih ds h1 h2]

/-- Lexicographic comparison of character sequences is transitive. -/
theorem charListLt_trans :
    ∀ s t u : List Char, charListLt s t = true → charListLt t u = true →
      charListLt s u = true := by
  intro s
  induction s with
  | nil =>
    intro t u h1 h2
    cases u with
    | nil =>
      cases t with
      | nil => exact h1
      | cons d ds => simp [charListLt] at h2
    | cons e es => simp [charListLt]
  | cons c cs ih =>
    intro t u h1 h2
    cases t with
    | nil => simp [charListLt] at h1
    | cons d ds =>
      cases u with
      | nil => simp [charListLt] at h2
      | cons e es =>
        by_cases hcd : c < d
        · by_cases hde : d < e
          · have hce : c < e := lt_trans hcd hde
            simp [charListLt, hce]
          · by_cases hed : e < d
            · simp [charListLt, hde, hed] at h2
            · have hdee : d = e := le_antisymm (not_lt.mp hed) (not_lt.mp hde)
              subst hdee
              simp [charListLt, hcd]
        · by_cases hdc : d < c
          · simp [charListLt, hcd, hdc] at h1
          · have hcde : c = d := le_antisymm (not_lt.mp hdc) (not_lt.mp hcd)
            subst hcde
            simp only [charListLt, if_neg hcd, if_neg (lt_irrefl c)] at h1
            by_cases hce : c < e
            · simp [charListLt, hce]
            · by_cases hec : e < c
              · simp [charListLt, hce, hec] at h2
              · have hcee : c = e := le_antisymm (not_lt.mp hec) (not_lt.mp hce)
                subst hcee
                simp only [charListLt, if_neg hce, if_neg (lt_irrefl c)] at h2 ⊢
                exact ih ds es h1 h2

/-- The natsort key comparison is total. -/
theorem natChunksLe_total :
    ∀ x y : List NatChunk, natChunksLe x y = true ∨ natChunksLe y x = true := by
  intro x
  induction x with
  | nil => intro y; left; rfl
  | cons a xs ih =>
    intro y
    cases y with
    | nil => right; rfl
    | cons b ys =>
      cases a with
      | text s =>
        cases b with
        | num n => left; rfl
        | text t =>
          cases hst : charListLt s t with
          | true => left; simp [natChunksLe, hst]
          | false =>
            cases hts : charListLt t s with
            | true => right; simp [natChunksLe, hts]
            | false =>
              have hstt : s = t := charListLt_eq_of_not s t hst hts
              subst hstt
              rcases ih ys with h | h
              · left; simp [natChunksLe, hst, h]
              · right; simp [natChunksLe, hst, h]
      | num m =>
        cases b with
        | text t => right; rfl
        | num n =>
          by_cases hmn : m < n
          · left; simp [natChunksLe, hmn]
          · by_cases hnm : n < m
            · right; simp [natChunksLe, hnm]
            · have hmnn : m = n := le_antisymm (not_lt.mp hnm) (not_lt.mp hmn)
              subst hmnn
              rcases ih ys with h | h
              · left; simp [natChunksLe, hmn, h]
              · right; simp [natChunksLe, hmn, h]

/-- The natsort key comparison is transitive. -/
theorem natChunksLe_trans :
    ∀ x y z : List NatChunk, natChunksLe x y = true → natChunksLe y z = true →
      natChunksLe x z = true := by
  intro x
  induction x with
  | nil => intro y z _ _; rfl
  | cons a xs ih =>
    intro y z h1 h2
    cases y with
    | nil => simp [natChunksLe] at h1
    | cons b ys =>
      cases z with
      | nil => simp [natChunksLe] at h2
      | cons c zs =>
        cases a with
        | text s =>
          cases b with
          | num n =>
            cases c with
            | text u => simp [natChunksLe] at h2
            | num p => rfl
          | text t =>
            cases c with
            | num p => rfl
            | text u =>
              cases hst : charListLt s t with
              | true =>
                cases htu : charListLt t u with
                | true =>
                  have hsu : charListLt s u = true := charListLt_trans s t u hst htu
                  simp [natChunksLe, hsu]
                | false =>
                  cases hut : charListLt u t with
                  | true => simp [natChunksLe, htu, hut] at h2
                  | false =>
                    have htuu : t = u := charListLt_eq_of_not t u htu hut
                    subst htuu
                    simp [natChunksLe, hst]
              | false =>
                cases hts : charListLt t s with
                | true => simp [natChunksLe, hst, hts] at h1
                | false =>
                  have hstt : s = t := charListLt_eq_of_not s t hst hts
                  subst hstt
                  simp [natChunksLe, hst] at h1
                  cases hsu : charListLt s u with
                  | true => simp [natChunksLe, hsu]
                  | false =>
                    cases hus : charListLt u s with
                    | true => simp [natChunksLe, hsu, hus] at h2
                    | false =>
                      have hsuu : s = u := charListLt_eq_of_not s u hsu hus
                      subst hsuu
                      simp [natChunksLe, hsu] at h2 ⊢
                      exact ih ys zs h1 h2
        | num m =>
          cases b with
          | text t => simp [natChunksLe] at h1
          | num n =>
            cases c with
            | text u => simp [natChunksLe] at h2
            | num p =>
              by_cases hmn : m < n
              · by_cases hnp : n < p
                · have hmp : m < p := lt_trans hmn hnp
                  simp [natChunksLe, hmp]
                · by_cases hpn : p < n
                  · simp [natChunksLe, hnp, hpn] at h2
                  · have hnpp : n = p := le_antisymm (not_lt.mp hpn) (not_lt.mp hnp)
                    subst hnpp
                    simp [natChunksLe, hmn]
              · by_cases hnm : n < m
                · simp [natChunksLe, hmn, hnm] at h1
                · have hmnn : m = n := le_antisymm (not_lt.mp hnm) (not_lt.mp hmn)
                  subst hmnn
                  simp [natChunksLe, hmn] at h1
                  by_cases hmp : m < p
                  · simp [natChunksLe, hmp]
                  · by_cases hpm : p < m
                    · simp [natChunksLe, hmp, hpm] at h2
                    · have hmpp : m = p := le_antisymm (not_lt.mp hpm) (not_lt.mp hmp)
                      subst hmpp
                      simp [natChunksLe, hmp] at h2 ⊢
                      exact ih ys zs h1 h2

/-- The entry built for a Zip info carries the info's inner path. -/
theorem entryOfZipInfo_path (i : Nat) (z : ZipInfo) :
    (entryOfZipInfo i z).path = z.filename := rfl

/-- The inner paths of the non-directory entries produced by the listing
loop are the filenames of the non-directory infos, in order. -/
theorem filterMap_enumFrom_paths :
    ∀ (n : Nat) (l : List ZipInfo),
      ((List.enumFrom n l).filterMap (fun p =>
          if isDirFilename p.2.filename then none
          else some (entryOfZipInfo p.1 p.2))).map ArchiveEntry.path
        = (l.filter (fun z => !(isDirFilename z.filename))).map ZipInfo.filename := by
  intro n l
  induction l generalizing n with
  | nil => rfl
  | cons z zs ih =>
    cases hz : isDirFilename z.filename with
    | true =>
      simp [List.enumFrom_cons, List.filterMap_cons, List.filter_cons, hz, ih]
    | false =>
      simp [List.enumFrom_cons, List.filterMap_cons, List.filter_cons, hz, ih,
        entryOfZipInfo_path]

/-- C6: for every archive (and even when the enumeration was interrupted
mid-way), the listing is sorted in case-insensitive natural order by inner
path, its inner paths are a permutation of the archive's non-directory
inner paths (no loss or duplication), `entryIndex` is reassigned to the
contiguous sequence 0..N-1 in listing order, and the concrete archive
`10.jpg, 2.jpg, 20.jpg, 1.jpg` lists as `1.jpg, 2.jpg, 10.jpg, 20.jpg`. -/
theorem c6_natural_listing (infos : List ZipInfo) (raised : Bool) :
    List.Sorted natLe (list_archive_contents (.ok (infos, raised))) ∧
    ((list_archive_contents (.ok (infos, raised))).map ArchiveEntry.path).Perm
      ((infos.filter (fun z => !(isDirFilename z.filename))).map ZipInfo.filename) ∧
    ((list_archive_contents (.ok (infos, raised))).map ArchiveEntry.entryIndex
      = List.range (list_archive_contents (.ok (infos, raised))).length) ∧
    ((list_archive_contents (.ok ([⟨"10.jpg", [0], none⟩, ⟨"2.jpg", [0], none⟩,
        ⟨"20.jpg", [0], none⟩, ⟨"1.jpg", [0], none⟩], false))).map ArchiveEntry.path
      = ["1.jpg", "2.jpg", "10.jpg", "20.jpg"]) := by
  haveI htot : IsTotal ArchiveEntry natLe := ⟨fun a b => natChunksLe_total _ _⟩
  haveI htrans : IsTrans ArchiveEntry natLe := ⟨fun a b c hab hbc => natChunksLe_trans _ _ _ hab hbc⟩
  have hmap_path : ∀ l : List ArchiveEntry,
      ((l.enum.map (fun p => { p.2 with entryIndex := p.1 })).map ArchiveEntry.path)
        = l.map ArchiveEntry.path := by
    intro l
    rw [List.map_map]
    have hco : (ArchiveEntry.path ∘ fun p : Nat × ArchiveEntry => { p.2 with entryIndex := p.1 })
        = (ArchiveEntry.path ∘ Prod.snd) := rfl
    rw [hco, ← List.map_map, List.enum_map_snd]
  have hmap_idx : ∀ l : List ArchiveEntry,
      ((l.enum.map (fun p => { p.2 with entryIndex := p.1 })).map ArchiveEntry.entryIndex)
        = List.range l.length := by
    intro l
    rw [List.map_map]
    have hco : (ArchiveEntry.entryIndex ∘ fun p : Nat × ArchiveEntry => { p.2 with entryIndex := p.1 })
        = Prod.fst := rfl
    rw [hco, List.enum_map_fst]
  have hlen_gen : ∀ l : List ArchiveEntry,
      ((l.enum.map (fun p => { p.2 with entryIndex := p.1 })).length) = l.length := by
    intro l
    rw [List.length_map, List.enum_length]
  have hsorted : ∀ l : List ArchiveEntry,
      List.Sorted natLe l →
      List.Sorted natLe (l.enum.map (fun p => { p.2 with entryIndex := p.1 })) := by
    intro l hl
    show ((l.enum.map (fun p => { p.2 with entryIndex := p.1 })).Pairwise natLe)
    rw [List.pairwise_map]
    have hl' : (l.enum.map Prod.snd).Pairwise natLe := by
      rw [List.enum_map_snd]
      exact hl
    have h2 : l.enum.Pairwise (fun p q : Nat × ArchiveEntry => natLe p.2 q.2) :=
      List.pairwise_map.mp hl'
    exact h2.imp (fun h => h)
  refine ⟨?_, ?_, ?_, ?_⟩
  · exact hsorted (List.insertionSort natLe (list_zip_contents (.ok (infos, raised))))
      (List.sorted_insertionSort natLe _)
  · have h1 : (list_archive_contents (.ok (infos, raised))).map ArchiveEntry.path
        = (List.insertionSort natLe (list_zip_contents (.ok (infos, raised)))).map
            ArchiveEntry.path :=
      hmap_path _
    have h2 : ((List.insertionSort natLe (list_zip_contents (.ok (infos, raised)))).map
          ArchiveEntry.path).Perm
        ((list_zip_contents (.ok (infos, raised))).map ArchiveEntry.path) :=
      (List.perm_insertionSort natLe _).map ArchiveEntry.path
    have h3 : (list_zip_contents (.ok (infos, raised))).map ArchiveEntry.path
        = (infos.filter (fun z => !(isDirFilename z.filename))).map ZipInfo.filename :=
      filterMap_enumFrom_paths 0 infos
    rw [h1]
    exact h3 ▸ h2
  · have hlen : (list_archive_contents (.ok (infos, raised))).length
        = (List.insertionSort natLe (list_zip_contents (.ok (infos, raised)))).length :=
      hlen_gen _
    rw [hlen]
    exact hmap_idx _
  · decide

/-- Witness for `c6_natural_listing` on a two-entry archive holding a
directory entry and one image. -/
theorem c6_natural_listing_witness :
    List.Sorted natLe (list_archive_contents (.ok ([⟨"d/", [], none⟩, ⟨"b.jpg", [0], none⟩],
        false))) ∧
    ((list_archive_contents (.ok ([⟨"d/", [], none⟩, ⟨"b.jpg", [0], none⟩],
        false))).map ArchiveEntry.path).Perm
      ((([⟨"d/", [], none⟩, ⟨"b.jpg", [0], none⟩] :
          List ZipInfo).filter (fun z => !(isDirFilename z.filename))).map ZipInfo.filename) ∧
    ((list_archive_contents (.ok ([⟨"d/", [], none⟩, ⟨"b.jpg", [0], none⟩],
        false))).map ArchiveEntry.entryIndex
      = List.range (list_archive_contents (.ok ([⟨"d/", [], none⟩, ⟨"b.jpg", [0], none⟩],
          false))).length) ∧
    ((list_archive_contents (.ok ([⟨"10.jpg", [0], none⟩, ⟨"2.jpg", [0], none⟩,
        ⟨"20.jpg", [0], none⟩, ⟨"1.jpg", [0], none⟩], false))).map ArchiveEntry.path
      = ["1.jpg", "2.jpg", "10.jpg", "20.jpg"]) :=
  c6_natural_listing [⟨"d/", [], none⟩, ⟨"b.jpg", [0], none⟩] false

/-- The rounded aspect value is the floor or the ceiling, clamped to 1. -/
theorem round_aspect_mem (v : ℚ) (key : ℤ → ℚ) :
    round_aspect v key = max ⌊v⌋ 1 ∨ round_aspect v key = max ⌈v⌉ 1 := by
  unfold round_aspect
  split
  · exact Or.inl rfl
  · exact Or.inr rfl

/-- The rounded aspect value is at least 1. -/
theorem one_le_round_aspect (v : ℚ) (key : ℤ → ℚ) : 1 ≤ round_aspect v key := by
  unfold round_aspect
  exact le_max_right _ 1

/-- The rounded aspect value never exceeds an integer bound at least 1 that
bounds the exact value. -/
theorem round_aspect_le_of (v : ℚ) (key : ℤ → ℚ) (b : ℤ) (hb : v ≤ (b : ℚ)) (hb1 : 1 ≤ b) :
    round_aspect v key ≤ b := by
  unfold round_aspect
  apply max_le
  · split
    · exact le_trans (Int.floor_le_ceil v) (Int.ceil_le.mpr hb)
    · exact Int.ceil_le.mpr hb
  · exact hb1

/-- The rounded aspect value of a positive quantity is within 1 of it. -/
theorem round_aspect_abs (v : ℚ) (key : ℤ → ℚ) (hv : 0 < v) :
    |((round_aspect v key : ℤ) : ℚ) - v| ≤ 1 := by
  have hfl : ((⌊v⌋ : ℤ) : ℚ) ≤ v := Int.floor_le v
  have hfl2 : v - 1 < ((⌊v⌋ : ℤ) : ℚ) := Int.sub_one_lt_floor v
  have hcl : v ≤ ((⌈v⌉ : ℤ) : ℚ) := Int.le_ceil v
  have hcl2 : ((⌈v⌉ : ℤ) : ℚ) < v + 1 := Int.ceil_lt_add_one v
  rcases round_aspect_mem v key with he | he
  · rw [he]
    push_cast
    rw [abs_sub_le_iff]
    refine ⟨sub_le_iff_le_add.mpr (max_le (by linarith) (by linarith)), ?_⟩
    have hm : ((⌊v⌋ : ℤ) : ℚ) ≤ max ((⌊v⌋ : ℤ) : ℚ) 1 := le_max_left _ _
    linarith
  · rw [he]
    push_cast
    rw [abs_sub_le_iff]
    refine ⟨sub_le_iff_le_add.mpr (max_le (by linarith) (by linarith)), ?_⟩
    have hm : ((⌈v⌉ : ℤ) : ℚ) ≤ max ((⌈v⌉ : ℤ) : ℚ) 1 := le_max_left _ _
    linarith

/-- C7: for every source of positive dimensions WxH and every max_size M of
at least 1, the thumbnail dimensions both fit in M, a source already within
the box is returned unresized (never upscaled), and the aspect ratio is
preserved within rounding: the cross products w'*H and h'*W differ by at
most max W H, which is the bound a one-pixel rounding of the scaled edge
induces. -/
theorem c7_thumbnail_bounds (w h M : ℕ) (hw : 1 ≤ w) (hh : 1 ≤ h) (hM : 1 ≤ M) :
    (generate_image_thumbnail_size w h M).1 ≤ M ∧
    (generate_image_thumbnail_size w h M).2 ≤ M ∧
    (w ≤ M → h ≤ M → generate_image_thumbnail_size w h M = (w, h)) ∧
    |((generate_image_thumbnail_size w h M).1 : ℤ) * (h : ℤ) -
        ((generate_image_thumbnail_size w h M).2 : ℤ) * (w : ℤ)| ≤ ((max w h : ℕ) : ℤ) := by
  have hqM : (0:ℚ) < M := by exact_mod_cast hM
  have hqw : (0:ℚ) < w := by exact_mod_cast hw
  have hqh : (0:ℚ) < h := by exact_mod_cast hh
  by_cases hfit : M ≥ w ∧ M ≥ h
  · have he : generate_image_thumbnail_size w h M = (w, h) := by
      simp only [generate_image_thumbnail_size, if_pos hfit]
    rw [he]
    refine ⟨hfit.1, hfit.2, fun _ _ => rfl, ?_⟩
    show |(w:ℤ) * (h:ℤ) - (h:ℤ) * (w:ℤ)| ≤ ((max w h : ℕ) : ℤ)
    rw [show ((w:ℤ) * (h:ℤ) - (h:ℤ) * (w:ℤ)) = 0 from by ring]
    simp only [abs_zero]
    positivity
  · have h1M : (M:ℚ)/(M:ℚ) = 1 := div_self (ne_of_gt hqM)
    by_cases hasp : (M:ℚ)/(M:ℚ) ≥ (w:ℚ)/(h:ℚ)
    · have hasp1 : (w:ℚ)/(h:ℚ) ≤ 1 := h1M ▸ hasp
      have hvpos : 0 < (M:ℚ) * ((w:ℚ)/(h:ℚ)) := mul_pos hqM (div_pos hqw hqh)
      have hvle : (M:ℚ) * ((w:ℚ)/(h:ℚ)) ≤ ((M : ℤ) : ℚ) := by
        push_cast
        exact mul_le_of_le_one_right (le_of_lt hqM) hasp1
      have hrle : round_aspect ((M:ℚ) * ((w:ℚ)/(h:ℚ)))
          (fun n => |(w:ℚ)/(h:ℚ) - (n:ℚ)/(M:ℚ)|) ≤ (M : ℤ) :=
        round_aspect_le_of _ _ _ hvle (by exact_mod_cast hM)
      have hr1 : 1 ≤ round_aspect ((M:ℚ) * ((w:ℚ)/(h:ℚ)))
          (fun n => |(w:ℚ)/(h:ℚ) - (n:ℚ)/(M:ℚ)|) := one_le_round_aspect _ _
      have habs := round_aspect_abs ((M:ℚ) * ((w:ℚ)/(h:ℚ)))
        (fun n => |(w:ℚ)/(h:ℚ) - (n:ℚ)/(M:ℚ)|) hvpos
      have he : generate_image_thumbnail_size w h M =
          ((round_aspect ((M:ℚ) * ((w:ℚ)/(h:ℚ)))
              (fun n => |(w:ℚ)/(h:ℚ) - (n:ℚ)/(M:ℚ)|)).toNat, M) := by
        simp only [generate_image_thumbnail_size, if_neg hfit, if_pos hasp]
      rw [he]
      have h0r : (0:ℤ) ≤ round_aspect ((M:ℚ) * ((w:ℚ)/(h:ℚ)))
          (fun n => |(w:ℚ)/(h:ℚ) - (n:ℚ)/(M:ℚ)|) := le_trans zero_le_one hr1
      refine ⟨?_, ?_, ?_, ?_⟩
      · show (round_aspect ((M:ℚ) * ((w:ℚ)/(h:ℚ)))
            (fun n => |(w:ℚ)/(h:ℚ) - (n:ℚ)/(M:ℚ)|)).toNat ≤ M
        exact Int.toNat_le.mpr hrle
      · show M ≤ M
        exact le_refl M
      · intro hh1 hh2
        exact absurd ⟨hh1, hh2⟩ hfit
      · show |(((round_aspect ((M:ℚ) * ((w:ℚ)/(h:ℚ)))
              (fun n => |(w:ℚ)/(h:ℚ) - (n:ℚ)/(M:ℚ)|)).toNat : ℕ) : ℤ) * (h:ℤ) -
            (M:ℤ) * (w:ℤ)| ≤ ((max w h : ℕ) : ℤ)
        rw [Int.toNat_of_nonneg h0r]
        have hvh : ((M:ℚ) * ((w:ℚ)/(h:ℚ))) * (h:ℚ) = (M:ℚ) * (w:ℚ) := by
          field_simp
        have hq : |((round_aspect ((M:ℚ) * ((w:ℚ)/(h:ℚ)))
              (fun n => |(w:ℚ)/(h:ℚ) - (n:ℚ)/(M:ℚ)|) : ℤ) : ℚ) * (h:ℚ) -
              (M:ℚ) * (w:ℚ)| ≤ (h:ℚ) := by
          rw [← hvh, ← sub_mul, abs_mul, abs_of_pos hqh]
          calc |((round_aspect ((M:ℚ) * ((w:ℚ)/(h:ℚ)))
                (fun n => |(w:ℚ)/(h:ℚ) - (n:ℚ)/(M:ℚ)|) : ℤ) : ℚ) -
                (M:ℚ) * ((w:ℚ)/(h:ℚ))| * (h:ℚ)
              ≤ 1 * (h:ℚ) := mul_le_mul_of_nonneg_right habs (le_of_lt hqh)
            _ = (h:ℚ) := one_mul _
        have hZ : |(round_aspect ((M:ℚ) * ((w:ℚ)/(h:ℚ)))
              (fun n => |(w:ℚ)/(h:ℚ) - (n:ℚ)/(M:ℚ)|)) * (h:ℤ) -
              (M:ℤ) * (w:ℤ)| ≤ (h:ℤ) := by exact_mod_cast hq
        have hmax : (h:ℤ) ≤ ((max w h : ℕ) : ℤ) := by exact_mod_cast le_max_right w h
        exact le_trans hZ hmax
    · have haspgt : 1 < (w:ℚ)/(h:ℚ) := by
        have hx := not_le.mp hasp
        rwa [h1M] at hx
      have hvpos : 0 < (M:ℚ) / ((w:ℚ)/(h:ℚ)) := div_pos hqM (div_pos hqw hqh)
      have hvlt : (M:ℚ) / ((w:ℚ)/(h:ℚ)) < (M:ℚ) := div_lt_self hqM haspgt
      have hvle : (M:ℚ) / ((w:ℚ)/(h:ℚ)) ≤ ((M : ℤ) : ℚ) := by
        push_cast
        exact le_of_lt hvlt
      have hrle : round_aspect ((M:ℚ) / ((w:ℚ)/(h:ℚ)))
          (fun n => if n = 0 then 0 else |(w:ℚ)/(h:ℚ) - (M:ℚ)/(n:ℚ)|) ≤ (M : ℤ) :=
        round_aspect_le_of _ _ _ hvle (by exact_mod_cast hM)
      have hr1 : 1 ≤ round_aspect ((M:ℚ) / ((w:ℚ)/(h:ℚ)))
          (fun n => if n = 0 then 0 else |(w:ℚ)/(h:ℚ) - (M:ℚ)/(n:ℚ)|) :=
        one_le_round_aspect _ _
      have habs := round_aspect_abs ((M:ℚ) / ((w:ℚ)/(h:ℚ)))
        (fun n => if n = 0 then 0 else |(w:ℚ)/(h:ℚ) - (M:ℚ)/(n:ℚ)|) hvpos
      have he : generate_image_thumbnail_size w h M =
          (M, (round_aspect ((M:ℚ) / ((w:ℚ)/(h:ℚ)))
              (fun n => if n = 0 then 0 else |(w:ℚ)/(h:ℚ) - (M:ℚ)/(n:ℚ)|)).toNat) := by
        simp only [generate_image_thumbnail_size, if_neg hfit, if_neg hasp]
      rw [he]
      have h0r : (0:ℤ) ≤ round_aspect ((M:ℚ) / ((w:ℚ)/(h:ℚ)))
          (fun n => if n = 0 then 0 else |(w:ℚ)/(h:ℚ) - (M:ℚ)/(n:ℚ)|) :=
        le_trans zero_le_one hr1
      refine ⟨?_, ?_, ?_, ?_⟩
      · show M ≤ M
        exact le_refl M
      · show (round_aspect ((M:ℚ) / ((w:ℚ)/(h:ℚ)))
            (fun n => if n = 0 then 0 else |(w:ℚ)/(h:ℚ) - (M:ℚ)/(n:ℚ)|)).toNat ≤ M
        exact Int.toNat_le.mpr hrle
      · intro hh1 hh2
        exact absurd ⟨hh1, hh2⟩ hfit
      · show |(M:ℤ) * (h:ℤ) - (((round_aspect ((M:ℚ) / ((w:ℚ)/(h:ℚ)))
            (fun n => if n = 0 then 0 else |(w:ℚ)/(h:ℚ) - (M:ℚ)/(n:ℚ)|)).toNat : ℕ) : ℤ) *
              (w:ℤ)| ≤ ((max w h : ℕ) : ℤ)
        rw [Int.toNat_of_nonneg h0r, abs_sub_comm]
        have hvw : ((M:ℚ) / ((w:ℚ)/(h:ℚ))) * (w:ℚ) = (M:ℚ) * (h:ℚ) := by
          field_simp
        have hq : |((round_aspect ((M:ℚ) / ((w:ℚ)/(h:ℚ)))
              (fun n => if n = 0 then 0 else |(w:ℚ)/(h:ℚ) - (M:ℚ)/(n:ℚ)|) : ℤ) : ℚ) * (w:ℚ) -
              (M:ℚ) * (h:ℚ)| ≤ (w:ℚ) := by
          rw [← hvw, ← sub_mul, abs_mul, abs_of_pos hqw]
          calc |((round_aspect ((M:ℚ) / ((w:ℚ)/(h:ℚ)))
                (fun n => if n = 0 then 0 else |(w:ℚ)/(h:ℚ) - (M:ℚ)/(n:ℚ)|) : ℤ) : ℚ) -
                (M:ℚ) / ((w:ℚ)/(h:ℚ))| * (w:ℚ)
              ≤ 1 * (w:ℚ) := mul_le_mul_of_nonneg_right habs (le_of_lt hqw)
            _ = (w:ℚ) := one_mul _
        have hZ : |(round_aspect ((M:ℚ) / ((w:ℚ)/(h:ℚ)))
              (fun n => if n = 0 then 0 else |(w:ℚ)/(h:ℚ) - (M:ℚ)/(n:ℚ)|)) * (w:ℤ) -
              (M:ℤ) * (h:ℤ)| ≤ (w:ℤ) := by exact_mod_cast hq
        have hmax : (w:ℤ) ≤ ((max w h : ℕ) : ℤ) := by exact_mod_cast le_max_left w h
        exact le_trans hZ hmax

/-- Witness for `c7_thumbnail_bounds` at a 2000x1000 source and max_size 256. -/
theorem c7_thumbnail_bounds_witness :
    ((1 : ℕ) ≤ 2000 ∧ (1 : ℕ) ≤ 1000 ∧ (1 : ℕ) ≤ 256) ∧
    ((generate_image_thumbnail_size 2000 1000 256).1 ≤ 256 ∧
     (generate_image_thumbnail_size 2000 1000 256).2 ≤ 256 ∧
     ((2000 : ℕ) ≤ 256 → (1000 : ℕ) ≤ 256 →
        generate_image_thumbnail_size 2000 1000 256 = (2000, 1000)) ∧
     |((generate_image_thumbnail_size 2000 1000 256).1 : ℤ) * ((1000 : ℕ) : ℤ) -
         ((generate_image_thumbnail_size 2000 1000 256).2 : ℤ) * ((2000 : ℕ) : ℤ)| ≤
       ((max 2000 1000 : ℕ) : ℤ)) :=
  ⟨⟨by decide, by decide, by decide⟩,
    c7_thumbnail_bounds 2000 1000 256 (by decide) (by decide) (by decide)⟩
